import Mathlib

/-!
Verification of the converge tool's core pipeline (package gonverge):
the per-file line classifier (`fileProcessor.process`), the Document
type (`goFile`) with its merge/render operations, the directory
scanner (`fileProducer.produce` / `validFile`), and the sequentialised
aggregator (`GoFileConverger.buildFile` / `ConvergeFiles`).

Go strings are Lean `String`s; a Go `map[string]struct{}` is embedded
as its key list in insertion order with membership-guarded insertion
(Go map iteration order is unspecified; insertion order is one
admissible iteration order, and no theorem below about import *sets*
depends on which admissible order is chosen).  The concurrent
producer/consumer/aggregator pipeline is embedded by making the
nondeterministic select loop explicit: the aggregator consumes a list
of delivery events (document arrived, error arrived, cancellation,
channel closed) in an arbitrary order chosen by the scheduler.
-/

namespace Converge

/-- `strings.HasPrefix`: `p` is a prefix of `s`.  Embedded on the character
lists underlying `String` (all tokens tested below are ASCII, where byte- and
character-level prefix tests agree). -/
def isPre (p s : String) : Bool := p.data.isPrefixOf s.data

/-- `strings.HasSuffix`: `p` is a suffix of `s`, on the character lists. -/
def isSuf (p s : String) : Bool := p.data.isSuffixOf s.data

/-- Dropping the first `n` characters of `s`; used to embed
`strings.TrimPrefix(s, p)` at call sites guarded by the matching
`strings.HasPrefix(s, p)` test, with `n = p.length`. -/
def dropChars (s : String) (n : Nat) : String := ⟨s.data.drop n⟩

/-- Taking the first `n` characters of `s`. -/
def takeChars (s : String) (n : Nat) : String := ⟨s.data.take n⟩

/-- The text of `s` before its first newline (the first line of a file). -/
def firstLineOf (s : String) : String := ⟨s.data.takeWhile (fun c => c ≠ '\n')⟩

/-- Token for a package declaration line (`tokenPkgDecl` in version.go). -/
def tokenPkgDecl : String := "package "

/-- Token for import declarations (`tokenImport`). -/
def tokenImport : String := "import"

/-- Token for a single import line (`tokenImportMono`). -/
def tokenImportMono : String := tokenImport ++ " \""

/-- Token that starts an import block (`tokenImportMultiStart`). -/
def tokenImportMultiStart : String := tokenImport ++ " ("

/-- Token that ends an import block (`tokenImportMultiFinish`). -/
def tokenImportMultiFinish : String := ")"

/-- `procState`: the state of the file processor. -/
inductive ProcState where
  | coding
  | importing
deriving DecidableEq, Repr

/-- `goFile`: package name, import set (map keys in insertion order), and
literal code text (the `strings.Builder` contents). -/
structure GoFile where
  pkgName : String
  imports : List String
  code : String
deriving DecidableEq, Repr

/-- `newGoFile`: fresh goFile with an empty import set. -/
def newGoFile : GoFile := ⟨"", [], ""⟩

/-- `goFile.addImport`: map insertion `f.imports[importLine] = struct{}{}`;
a key already present is left where it is, a new key is appended. -/
def GoFile.addImport (f : GoFile) (importLine : String) : GoFile :=
  if importLine ∈ f.imports then f
  else { f with imports := f.imports ++ [importLine] }

/-- `goFile.appendCode`: writes the line then `"\n"` to the code builder. -/
def GoFile.appendCode (f : GoFile) (code : String) : GoFile :=
  { f with code := f.code ++ code ++ "\n" }

/-- `goFile.merge`: package name set-if-empty, imports inserted one by one
(`for imp := range gf.imports`), code text appended. -/
def GoFile.merge (f : GoFile) (gf : GoFile) : GoFile :=
  let f1 := if f.pkgName = "" then { f with pkgName := gf.pkgName } else f
  let f2 := gf.imports.foldl GoFile.addImport f1
  { f2 with code := f2.code ++ gf.code }

/-- `goFile.buildImports`: empty string for no imports, single-line form for
exactly one, parenthesised block (one tab-indented import per line, in map
iteration order) for more than one. -/
def GoFile.buildImports (f : GoFile) : String :=
  if f.imports.length = 0 then ""
  else if f.imports.length = 1 then
    String.join (f.imports.map fun imp => "import " ++ imp ++ "\n")
  else
    "import (\n" ++ String.join (f.imports.map fun imp => "\t" ++ imp ++ "\n") ++ ")\n"

/-- The unformatted text built by `goFile.FormatCode` before it is handed to
`go/format.Source`: package line, blank line, import block (when the import
set is non-empty), code. -/
def GoFile.unformatted (f : GoFile) : String :=
  "package " ++ f.pkgName ++ "\n\n" ++
    (if f.imports.length > 0 then f.buildImports else "") ++ f.code

/-- A character admissible in a Go identifier (letter, digit or underscore). -/
def isGoIdentChar (c : Char) : Bool :=
  c.isAlpha || c.isDigit || c = '_'

/-- A non-empty Go identifier not starting with a digit. -/
def isGoIdent (s : String) : Bool :=
  !s.data.isEmpty && !(s.data.headD ' ').isDigit && s.data.all isGoIdentChar

/-- Modelled from the spec: the external canonical formatter
(`go/format.Source`), which is outside the core and "accepts unformatted
source text and returns formatted bytes or a syntax error".  Only the
syntactic requirement relevant here is modelled: a Go source file must open
with a package clause `package <identifier>` with a non-empty identifier;
text violating that is a syntax error.  On accepted input the formatted
bytes are represented by the input text itself (canonical reformatting is
opaque to every claim below). -/
def formatSource (src : String) : Except String String :=
  let firstLine := firstLineOf src
  if isPre tokenPkgDecl firstLine &&
      isGoIdent (dropChars firstLine tokenPkgDecl.length) then
    .ok src
  else
    .error "expected package identifier"

/-- `goFile.FormatCode`: renders the unformatted text and delegates to the
external formatter. -/
def GoFile.FormatCode (f : GoFile) : Except String String :=
  formatSource f.unformatted

/-- One step of `fileProcessor.process`: the switch over one scanned line
(trailing newline already stripped by `bufio.Scanner`), given the current
processor state and the goFile accumulated so far.  The `strings.TrimPrefix`
calls are guarded by the matching `strings.HasPrefix` case, so they are
embedded as `String.drop` of the token length. -/
def processLine (st : ProcState) (res : GoFile) (line : String) :
    ProcState × GoFile :=
  if isPre tokenPkgDecl line then
    (.coding, { res with pkgName := dropChars line tokenPkgDecl.length })
  else if isPre tokenImportMultiStart line then
    (.importing, res)
  else if isPre tokenImportMono line then
    (st, res.addImport (dropChars line tokenImport.length))
  else if st = .importing && isSuf tokenImportMultiFinish line then
    (.coding, res)
  else if st = .importing then
    if line = "" then (st, res) else (st, res.addImport line)
  else
    (st, res.appendCode line)

/-- `fileProcessor.process` on a file's scanned lines: the processor starts
in `procStateCoding` with a fresh goFile and folds `processLine` over the
lines in order. -/
def process (lines : List String) : GoFile :=
  (lines.foldl (fun p line => processLine p.1 p.2 line) (.coding, newGoFile)).2

/-- An entry of the scanned file tree: `os.DirFS(dir)` as seen by
`fs.WalkDir`.  Directory entries carry their child entries in the order the
walk visits them. -/
inductive FSEntry where
  | file (name : String)
  | dir (name : String) (entries : List FSEntry)

/-- `filepath.Join` for the paths produced by the walk (no component here is
empty except the accumulated root, and no component ends in a separator). -/
def pathJoin (a b : String) : String :=
  if a = "" then b else a ++ "/" ++ b

/-- `validFile` (gonverge/worker.go): the entry must have the `.go` suffix,
must not have the `_test.go` suffix, and must not equal any exclude name. -/
def validFile (name : String) (excludes : List String) : Bool :=
  if !isSuf ".go" name then false
  else if isSuf "_test.go" name then false
  else if excludes.contains name then false
  else true

mutual

/-- One `fs.WalkDir` visit inside `fileProducer.produce`: a directory entry
returns nil — which does *not* prune the walk, so its children are visited
next — and a file entry is emitted when `validFile` accepts it.  `pre` is
the joined path of the enclosing directories. -/
def walkEntry (excludes : List String) (pre : String) : FSEntry → List String
  | .file name => if validFile name excludes then [pathJoin pre name] else []
  | .dir name entries => walkList excludes (pathJoin pre name) entries

/-- The walk over a directory's children, in order. -/
def walkList (excludes : List String) (pre : String) : List FSEntry → List String
  | [] => []
  | e :: es => walkEntry excludes pre e ++ walkList excludes pre es

end

/-- `fileProducer.produce dir`: paths sent to the path channel, in emission
order, for the file tree rooted at `dir` whose top-level entries are
`root`.  Each emitted path is `filepath.Join(dir, path)` for the
walk-relative `path`. -/
def produce (dir : String) (root : List FSEntry) (excludes : List String) :
    List String :=
  walkList excludes dir root

/-- `fileProducer.validPackage` (internal/gonverge/worker.go):
`parser.ParseFile(..., parser.PackageClauseOnly)` is embedded as the
candidate's declared package name, `none` when the parse fails; the name
must be a member of the package set. -/
def validPackage (packages : List String) (declaredPkg : Option String) : Bool :=
  match declaredPkg with
  | none => false
  | some name => packages.contains name

/-- `fileProducer.validFile` (internal/gonverge/worker.go): compiled exclude
regexes are embedded as name predicates.  Exclude patterns are checked
first; then a non-empty package allow-set overrides every other check via
`validPackage`; otherwise the `.go` suffix is required and the `_test.go`
suffix is rejected. -/
def validFileInternal (excludes : List (String → Bool)) (packages : List String)
    (name : String) (declaredPkg : Option String) : Bool :=
  if excludes.any (fun re => re name) then false
  else if packages.length > 0 then validPackage packages declaredPkg
  else if !isSuf ".go" name then false
  else if isSuf "_test.go" name then false
  else true

/-- The error carried on the pipeline's error channel: the producer sends
walk errors, a consumer sends the processing error of its file. -/
inductive PipeErr where
  | scanError
  | parseError
deriving DecidableEq, Repr

/-- One delivery observed by the aggregator's select loop, in the order the
scheduler resolves the four select cases: context cancellation fired, an
error arrived on the error channel, a processed goFile arrived on the
result channel, or the channels were closed (all workers done). -/
inductive PipeEvent where
  | cancelled
  | errEv (e : PipeErr)
  | docEv (d : GoFile)
  | closed
deriving DecidableEq, Repr

/-- The error returned by `ConvergeFiles`: `ctx.Err()` from cancellation, a
pipeline error forwarded by `buildFile`, a `FormatCode` failure, or a
failure of the final `w.Write`. -/
inductive ConvError where
  | cancelledErr
  | pipeErr (e : PipeErr)
  | formatErr
  | writeErr
deriving DecidableEq, Repr

/-- `GoFileConverger.buildFile`'s select loop with the accumulated goFile
made explicit: cancellation and errors return immediately, a document is
merged into the accumulator, closure returns the accumulator. -/
def buildFileLoop (gf : GoFile) : List PipeEvent → Except ConvError GoFile
  | [] => .ok gf
  | .cancelled :: _ => .error .cancelledErr
  | .errEv e :: _ => .error (.pipeErr e)
  | .docEv d :: rest => buildFileLoop (gf.merge d) rest
  | .closed :: _ => .ok gf

/-- `GoFileConverger.buildFile`: the loop started on `newGoFile`. -/
def buildFile (events : List PipeEvent) : Except ConvError GoFile :=
  buildFileLoop newGoFile events

/-- The outcome of one `ConvergeFiles` run: the bytes the output writer
received and the error returned (`none` on success). -/
structure ConvResult where
  written : String
  error : Option ConvError
deriving DecidableEq, Repr

/-- The final `w.Write(outBytes)`: a healthy writer takes all bytes and
returns no error; a failing writer may have taken any number of bytes
before reporting the failure (`wTaken` of them). -/
def writeOut (wFails : Bool) (wTaken : Nat) (outBytes : String) :
    String × Option ConvError :=
  if wFails then (takeChars outBytes wTaken, some .writeErr) else (outBytes, none)

/-- `GoFileConverger.ConvergeFiles`, sequentialised: build the goFile from
the delivered events, format it, and only then write; each failing step
returns before the next runs. -/
def ConvergeFiles (events : List PipeEvent) (wFails : Bool) (wTaken : Nat) :
    ConvResult :=
  match buildFile events with
  | .error e => ⟨"", some e⟩
  | .ok gf =>
    match gf.FormatCode with
    | .error _ => ⟨"", some .formatErr⟩
    | .ok outBytes =>
      let w := writeOut wFails wTaken outBytes
      ⟨w.1, w.2⟩

theorem GoFile.addImport_pkgName (f : GoFile) (a : String) :
    (f.addImport a).pkgName = f.pkgName := by
  unfold GoFile.addImport; split <;> rfl

theorem GoFile.addImport_code (f : GoFile) (a : String) :
    (f.addImport a).code = f.code := by
  unfold GoFile.addImport; split <;> rfl

theorem GoFile.mem_addImport (f : GoFile) (a x : String) :
    x ∈ (f.addImport a).imports ↔ x ∈ f.imports ∨ x = a := by
  unfold GoFile.addImport
  split
  · rename_i hmem
    constructor
    · exact Or.inl
    · rintro (h | rfl) <;> [exact h; exact hmem]
  · simp

theorem GoFile.addImport_of_mem (f : GoFile) (a : String) (h : a ∈ f.imports) :
    f.addImport a = f := by
  unfold GoFile.addImport; rw [if_pos h]

theorem GoFile.addImport_nodup (f : GoFile) (a : String) (h : f.imports.Nodup) :
    (f.addImport a).imports.Nodup := by
  unfold GoFile.addImport
  split
  · exact h
  · rename_i hmem
    simp only [List.nodup_append, List.nodup_cons, List.not_mem_nil,
      not_false_iff, List.nodup_nil, and_true, true_and]
    refine ⟨h, fun y hy hz => ?_⟩
    rw [List.mem_singleton] at hz
    subst hz
    exact hmem hy

theorem foldl_addImport_pkgName (l : List String) (f : GoFile) :
    (l.foldl GoFile.addImport f).pkgName = f.pkgName := by
  induction l generalizing f with
  | nil => rfl
  | cons a t ih =>
    rw [List.foldl_cons, ih (f.addImport a), GoFile.addImport_pkgName]

theorem foldl_addImport_code (l : List String) (f : GoFile) :
    (l.foldl GoFile.addImport f).code = f.code := by
  induction l generalizing f with
  | nil => rfl
  | cons a t ih =>
    rw [List.foldl_cons, ih (f.addImport a), GoFile.addImport_code]

theorem mem_foldl_addImport (l : List String) (f : GoFile) (x : String) :
    x ∈ (l.foldl GoFile.addImport f).imports ↔ x ∈ f.imports ∨ x ∈ l := by
  induction l generalizing f with
  | nil => simp
  | cons a t ih =>
    rw [List.foldl_cons, ih (f.addImport a)]
    simp [GoFile.mem_addImport, or_assoc, or_comm (a := x = a), List.mem_cons]

theorem foldl_addImport_of_subset (l : List String) (f : GoFile)
    (h : ∀ x ∈ l, x ∈ f.imports) : l.foldl GoFile.addImport f = f := by
  induction l generalizing f with
  | nil => rfl
  | cons a t ih =>
    rw [List.foldl_cons, GoFile.addImport_of_mem f a (h a (by simp))]
    exact ih f fun x hx => h x (by simp [hx])

theorem foldl_addImport_of_disjoint (l : List String) (f : GoFile)
    (hd : l.Nodup) (hdisj : ∀ x ∈ l, x ∉ f.imports) :
    (l.foldl GoFile.addImport f).imports = f.imports ++ l := by
  induction l generalizing f with
  | nil => simp
  | cons a t ih =>
    have ha : a ∉ f.imports := hdisj a (by simp)
    have hstep : f.addImport a = { f with imports := f.imports ++ [a] } := by
      unfold GoFile.addImport; rw [if_neg ha]
    rw [List.foldl_cons, hstep, ih _ (List.Nodup.of_cons hd)]
    · simp
    · intro x hx
      simp only [List.mem_append, List.mem_singleton]
      rintro (hf | rfl)
      · exact hdisj x (by simp [hx]) hf
      · exact (List.nodup_cons.mp hd).1 hx

theorem GoFile.merge_imports_of_subset (f gf : GoFile)
    (h : ∀ y ∈ gf.imports, y ∈ f.imports) : (f.merge gf).imports = f.imports := by
  unfold GoFile.merge
  dsimp only
  split
  · rw [foldl_addImport_of_subset _ _ (by simpa using h)]
  · rw [foldl_addImport_of_subset _ _ h]

theorem GoFile.merge_imports_of_disjoint (f gf : GoFile)
    (hd : gf.imports.Nodup) (hdisj : ∀ y ∈ gf.imports, y ∉ f.imports) :
    (f.merge gf).imports = f.imports ++ gf.imports := by
  unfold GoFile.merge
  dsimp only
  split
  · rw [foldl_addImport_of_disjoint _ _ hd (by simpa using hdisj)]
  · rw [foldl_addImport_of_disjoint _ _ hd hdisj]

theorem GoFile.merge_pkgName (f gf : GoFile) :
    (f.merge gf).pkgName = if f.pkgName = "" then gf.pkgName else f.pkgName := by
  unfold GoFile.merge
  split <;> simp [foldl_addImport_pkgName]

theorem GoFile.merge_code (f gf : GoFile) :
    (f.merge gf).code = f.code ++ gf.code := by
  unfold GoFile.merge
  split <;> simp [foldl_addImport_code]

theorem GoFile.mem_merge (f gf : GoFile) (x : String) :
    x ∈ (f.merge gf).imports ↔ x ∈ f.imports ∨ x ∈ gf.imports := by
  unfold GoFile.merge
  split <;> simp [mem_foldl_addImport]

/-- Claim C5: merging a partial goFile into the accumulating goFile keeps
the accumulated package name when it is non-empty and adopts the partial's
otherwise (first writer wins); the merged import set is the union of the
two import sets; and the partial's code text is appended, unchanged and in
order, after the code already accumulated. -/
theorem merge_spec (f gf : GoFile) :
    (f.merge gf).pkgName = (if f.pkgName = "" then gf.pkgName else f.pkgName) ∧
    (∀ x, x ∈ (f.merge gf).imports ↔ x ∈ f.imports ∨ x ∈ gf.imports) ∧
    (f.merge gf).code = f.code ++ gf.code :=
  ⟨GoFile.merge_pkgName f gf, fun x => GoFile.mem_merge f gf x,
    GoFile.merge_code f gf⟩

/-- Claim C9: import deduplication is idempotent.  Merging a partial goFile
into a fresh accumulator and then merging a second partial carrying the very
same import lines leaves the import set exactly the first partial's lines,
each present exactly once; and re-adding an import any number of times after
its first insertion changes nothing. -/
theorem import_dedup_idempotent (f d1 d2 : GoFile) (x : String)
    (h1 : d1.imports.Nodup) (h2 : d2.imports = d1.imports) :
    ((newGoFile.merge d1).merge d2).imports = d1.imports ∧
    (∀ y ∈ ((newGoFile.merge d1).merge d2).imports,
        ((newGoFile.merge d1).merge d2).imports.count y = 1) ∧
    (f.addImport x).addImport x = f.addImport x := by
  have hfirst : (newGoFile.merge d1).imports = d1.imports := by
    rw [GoFile.merge_imports_of_disjoint newGoFile d1 h1 (by simp [newGoFile])]
    simp [newGoFile]
  have hsecond : ((newGoFile.merge d1).merge d2).imports = d1.imports := by
    rw [GoFile.merge_imports_of_subset _ _ ?_, hfirst]
    intro y hy
    rw [h2] at hy
    rw [hfirst]
    exact hy
  refine ⟨hsecond, ?_, ?_⟩
  · intro y hy
    rw [hsecond] at hy ⊢
    exact List.count_eq_one_of_mem h1 hy
  · by_cases hx : x ∈ f.imports
    · rw [GoFile.addImport_of_mem f x hx, GoFile.addImport_of_mem f x hx]
    · exact GoFile.addImport_of_mem _ x (by simp [GoFile.mem_addImport])

/-- Witness for C9 at concrete goFiles each importing `"fmt"`. -/
theorem import_dedup_idempotent_witness :
    ((newGoFile.merge ⟨"main", ["\"fmt\""], ""⟩).merge
        ⟨"main", ["\"fmt\""], "x()\n"⟩).imports = ["\"fmt\""] :=
  (import_dedup_idempotent newGoFile ⟨"main", ["\"fmt\""], ""⟩
    ⟨"main", ["\"fmt\""], "x()\n"⟩ "\"os\"" (by decide) rfl).1

/-- Claim C4 counterexample: in the Importing state, the line `"x)"` matches
no higher-priority rule, is non-empty and is not equal to the import-block
end token `")"`, yet the processor ends the import block (state returns to
Coding) and captures nothing, because the code tests `strings.HasSuffix`
rather than equality; the claim instead demands that this line be added as
an import. -/
theorem import_block_end_counterexample :
    processLine .importing newGoFile "x)" = (.coding, newGoFile) ∧
    "x)" ≠ ")" ∧ "x)" ≠ "" ∧
    isPre tokenPkgDecl "x)" = false ∧
    isPre tokenImportMultiStart "x)" = false ∧
    isPre tokenImportMono "x)" = false := by decide

/-- Claim C4 (amended): while the state is Importing and the line matches no
higher-priority rule, the import block ends — state returns to Coding with
no text captured — exactly when the line ends with the import-block end
token `")"` (a suffix test, not an equality test); any other non-empty line
is added as an import, and an empty line is skipped. -/
theorem import_block_end (st : ProcState) (res : GoFile) (line : String)
    (hst : st = .importing)
    (h1 : isPre tokenPkgDecl line = false)
    (h2 : isPre tokenImportMultiStart line = false)
    (h3 : isPre tokenImportMono line = false) :
    (isSuf tokenImportMultiFinish line = true →
      processLine st res line = (.coding, res)) ∧
    (isSuf tokenImportMultiFinish line = false → line ≠ "" →
      processLine st res line = (.importing, res.addImport line)) ∧
    (line = "" → processLine st res line = (.importing, res)) := by
  subst hst
  refine ⟨fun hsuf => ?_, fun hsuf hne => ?_, fun hempty => ?_⟩
  · simp [processLine, h1, h2, h3, hsuf]
  · simp [processLine, h1, h2, h3, hsuf, hne]
  · subst hempty
    rfl

/-- Witness for C4's amended theorem: the bare `")"` line ends the block,
and the indented line `"\t\"os\""` is captured as an import. -/
theorem import_block_end_witness :
    processLine .importing newGoFile ")" = (.coding, newGoFile) ∧
    processLine .importing newGoFile "\t\"os\"" =
      (.importing, newGoFile.addImport "\t\"os\"") := by
  refine ⟨?_, ?_⟩
  · exact (import_block_end .importing newGoFile ")" rfl (by decide) (by decide)
      (by decide)).1 (by decide)
  · exact (import_block_end .importing newGoFile "\t\"os\"" rfl (by decide)
      (by decide) (by decide)).2.1 (by decide) (by decide)

/-- Claim C6 counterexample: a goFile whose import set received `"os"` and
then `"fmt"` renders the parenthesised block in insertion order — one
admissible Go map iteration order — with `"os"` before `"fmt"`, not in the
lexicographically sorted order the claim demands. -/
theorem render_imports_counterexample :
    ((newGoFile.addImport "\"os\"").addImport "\"fmt\"").buildImports
      = "import (\n\t\"os\"\n\t\"fmt\"\n)\n" ∧
    ((newGoFile.addImport "\"os\"").addImport "\"fmt\"").buildImports
      ≠ "import (\n\t\"fmt\"\n\t\"os\"\n)\n" := by decide

/-- Claim C6 (amended): the renderer emits no import block when the import
set is empty, the single-line `import` form when it has exactly one
element, and, when it has more than one element, a parenthesised block with
one tab-indented import per line, deduplicated (each element appears at
most once); the lines appear in Go map iteration order, which is neither
sorted nor deterministic. -/
theorem render_imports (f : GoFile) (hnd : f.imports.Nodup) :
    (f.imports = [] → f.buildImports = "") ∧
    (∀ x, f.imports = [x] → f.buildImports = "import " ++ x ++ "\n") ∧
    (2 ≤ f.imports.length →
      f.buildImports =
        "import (\n" ++ String.join (f.imports.map fun i => "\t" ++ i ++ "\n")
          ++ ")\n" ∧
      ∀ y, f.imports.count y ≤ 1) := by
  refine ⟨fun h => ?_, fun x h => ?_, fun h => ⟨?_, fun y => ?_⟩⟩
  · simp [GoFile.buildImports, h]
  · simp only [GoFile.buildImports, h]
    rfl
  · have h0 : ¬f.imports.length = 0 := by omega
    have h1 : ¬f.imports.length = 1 := by omega
    unfold GoFile.buildImports
    rw [if_neg h0, if_neg h1]
  · exact List.nodup_iff_count_le_one.mp hnd y

/-- Witness for C6's amended theorem at a two-element import set. -/
theorem render_imports_witness :
    (GoFile.mk "main" ["\"fmt\"", "\"os\""] "").buildImports
      = "import (\n\t\"fmt\"\n\t\"os\"\n)\n" := by
  have h := ((render_imports (GoFile.mk "main" ["\"fmt\"", "\"os\""] "")
    (by decide)).2.2 (by decide)).1
  rw [h]
  decide

/-- Claim C7 counterexample: a test file whose declared package is in the
configured allow-set is still rejected when an exclude pattern matches its
name, because `validFile` checks the exclude patterns before the package
override; the claim's "included if and only if the allow-set contains the
declared package" therefore fails at this input. -/
theorem test_file_inclusion_counterexample :
    validFileInternal [fun n => n == "a_test.go"] ["main"] "a_test.go"
      (some "main") = false ∧
    "main" ∈ ["main"] ∧
    isSuf "_test.go" "a_test.go" = true := by decide

/-- Claim C7 (amended): a candidate file whose name ends in `_test.go` is
excluded by default (no allow-set configured), and it is included if and
only if no exclude pattern matches its name, a package allow-set is
configured, and the package-clause-only parse reads a declared package name
that is a member of the allow-set. -/
theorem test_file_inclusion (excludes : List (String → Bool))
    (packages : List String) (name : String) (declaredPkg : Option String)
    (htest : isSuf "_test.go" name = true) :
    validFileInternal excludes packages name declaredPkg = true ↔
      (excludes.any (fun re => re name) = false ∧ packages ≠ [] ∧
        ∃ p, declaredPkg = some p ∧ p ∈ packages) := by
  unfold validFileInternal
  cases hex : excludes.any (fun re => re name) with
  | true => simp [hex]
  | false =>
    simp only [hex, Bool.false_eq_true, if_false]
    cases hpk : packages with
    | nil =>
      simp only [List.length_nil, gt_iff_lt, Nat.lt_irrefl, if_false]
      cases hgo : isSuf ".go" name <;> simp [hgo, htest]
    | cons p ps =>
      simp only [List.length_cons, gt_iff_lt, Nat.succ_pos, if_pos]
      cases declaredPkg with
      | none => simp [validPackage]
      | some q =>
        simp [validPackage, List.contains, List.elem_iff]

/-- Witness for C7's amended theorem: with no excludes, `a_test.go` is
included when its declared package `main` is in the allow-set and excluded
when no allow-set is configured. -/
theorem test_file_inclusion_witness :
    validFileInternal [] ["main"] "a_test.go" (some "main") = true ∧
    validFileInternal [] [] "a_test.go" (some "main") = false := by
  refine ⟨?_, ?_⟩
  · exact (test_file_inclusion [] ["main"] "a_test.go" (some "main")
      (by decide)).mpr ⟨by decide, by decide, "main", rfl, by decide⟩
  · cases hb : validFileInternal [] [] "a_test.go" (some "main") with
    | false => rfl
    | true =>
      obtain ⟨-, hp, -⟩ := (test_file_inclusion [] [] "a_test.go" (some "main")
        (by decide)).mp hb
      exact absurd rfl hp

/-- Claim C3: bytes reach the output writer only after the whole merge and
format have succeeded; every run returning a scan, parse, format or
cancellation error writes nothing to the sink (only a failure of the final
write itself can leave partial bytes behind). -/
theorem error_implies_no_output (events : List PipeEvent) (wFails : Bool)
    (wTaken : Nat) (e : ConvError)
    (he : (ConvergeFiles events wFails wTaken).error = some e)
    (hw : e ≠ .writeErr) :
    (ConvergeFiles events wFails wTaken).written = "" := by
  cases hb : buildFile events with
  | error err =>
    unfold ConvergeFiles
    rw [hb]
  | ok gf =>
    cases hf : gf.FormatCode with
    | error msg =>
      unfold ConvergeFiles
      rw [hb]
      dsimp only
      rw [hf]
    | ok outBytes =>
      unfold ConvergeFiles at he
      rw [hb] at he
      dsimp only at he
      rw [hf] at he
      dsimp only at he
      cases wFails with
      | false => simp [writeOut] at he
      | true =>
        exfalso
        simp [writeOut] at he
        exact hw he.symm

/-- Witness for C3 at a run that fails with a parse error. -/
theorem error_implies_no_output_witness :
    (ConvergeFiles [PipeEvent.errEv .parseError] false 0).written = "" :=
  error_implies_no_output [PipeEvent.errEv .parseError] false 0
    (.pipeErr .parseError) (by decide) (by decide)

theorem buildFileLoop_cancelled (gf : GoFile) (ds : List GoFile)
    (rest : List PipeEvent) :
    buildFileLoop gf (ds.map PipeEvent.docEv ++ PipeEvent.cancelled :: rest)
      = .error .cancelledErr := by
  induction ds generalizing gf with
  | nil => rfl
  | cons d t ih => simpa [buildFileLoop] using ih (gf.merge d)

/-- Claim C8: when the cancellation signal is delivered to the aggregator's
select loop before the pipeline completes — after any number of documents
have already been merged, zero included — ConvergeFiles returns the
Cancelled failure and writes nothing to the output sink. -/
theorem cancellation_no_output (ds : List GoFile) (rest : List PipeEvent)
    (wFails : Bool) (wTaken : Nat) :
    ConvergeFiles (ds.map PipeEvent.docEv ++ PipeEvent.cancelled :: rest)
      wFails wTaken = ⟨"", some .cancelledErr⟩ := by
  unfold ConvergeFiles buildFile
  rw [buildFileLoop_cancelled]

/-- Claim C1 evaluation: `fileProducer.produce` run on a directory holding
the file `a.go` and a subdirectory `sub` holding `b.go` emits both paths:
the `fs.WalkDir` callback returns nil for directory entries, which does not
prune the walk, so the scanner descends into `sub` and sends `sub/b.go` to
the path channel — contradicting the claim (and the tool's own usage text)
that subdirectories are never descended into. -/
theorem produce_descends_into_subdirs :
    produce "src" [.file "a.go", .dir "sub" [.file "b.go"]] []
      = ["src/a.go", "src/sub/b.go"] := by decide

/-- Claim C2 evaluation: a directory with zero eligible files makes the
scanner emit no paths, so the aggregator's only event is channel closure
and the final goFile is empty; `FormatCode` then renders `"package \n\n"`,
whose package clause has no identifier, so the external formatter rejects
it and ConvergeFiles returns a format error (with nothing written) instead
of the error-free empty output the claim describes. -/
theorem empty_dir_returns_format_error :
    produce "src" [] [] = [] ∧
    newGoFile.unformatted = "package \n\n" ∧
    ConvergeFiles [PipeEvent.closed] false 0 = ⟨"", some .formatErr⟩ := by decide

theorem dropChars_append (a b : String) : dropChars (a ++ b) a.length = b := by
  show String.mk ((a.data ++ b.data).drop a.data.length) = b
  rw [List.drop_left]

theorem mono_line_split (path : String) :
    ("import \"" ++ path ++ "\"") = tokenImport ++ (" \"" ++ path ++ "\"") := by
  rw [show ("import \"" : String) = tokenImport ++ " \"" from by decide,
    String.append_assoc, String.append_assoc, String.append_assoc]

/-- Claim C10: a single-line import `import "path"` is stored with only the
`import` token stripped — keeping the space before the quoted path — while
a line inside a multi-import block is stored verbatim with its leading tab;
merging one file of each form for the same path therefore leaves two
distinct elements for that one path in the final import set.  The
hypotheses record the (always true) classifications of the two
path-carrying lines against the classifier's tokens. -/
theorem dual_import_forms (path : String)
    (h1 : isPre tokenPkgDecl ("import \"" ++ path ++ "\"") = false)
    (h2 : isPre tokenImportMultiStart ("import \"" ++ path ++ "\"") = false)
    (h3 : isPre tokenImportMono ("import \"" ++ path ++ "\"") = true)
    (h4 : isPre tokenPkgDecl ("\t\"" ++ path ++ "\"") = false)
    (h5 : isPre tokenImportMultiStart ("\t\"" ++ path ++ "\"") = false)
    (h6 : isPre tokenImportMono ("\t\"" ++ path ++ "\"") = false)
    (h7 : isSuf tokenImportMultiFinish ("\t\"" ++ path ++ "\"") = false)
    (h8 : ("\t\"" ++ path ++ "\"") ≠ "")
    (h9 : (" \"" ++ path ++ "\"") ≠ ("\t\"" ++ path ++ "\"")) :
    (process ["package main", "import \"" ++ path ++ "\""]).imports
      = [" \"" ++ path ++ "\""] ∧
    (process ["package main", "import (", "\t\"" ++ path ++ "\"", ")"]).imports
      = ["\t\"" ++ path ++ "\""] ∧
    ((newGoFile.merge (process ["package main", "import \"" ++ path ++ "\""])).merge
        (process ["package main", "import (", "\t\"" ++ path ++ "\"", ")"])).imports
      = [" \"" ++ path ++ "\"", "\t\"" ++ path ++ "\""] := by
  have hdropn : dropChars ("import \"" ++ path ++ "\"") tokenImport.length
      = " \"" ++ path ++ "\"" := by
    rw [mono_line_split, dropChars_append]
  have e1 : processLine .coding newGoFile "package main"
      = (.coding, ⟨"main", [], ""⟩) := by decide
  have emono : processLine .coding (⟨"main", [], ""⟩ : GoFile)
      ("import \"" ++ path ++ "\"")
      = (.coding, ⟨"main", [" \"" ++ path ++ "\""], ""⟩) := by
    simp only [processLine, h1, h2, h3, Bool.false_eq_true, if_false, if_true]
    rw [hdropn]
    simp [GoFile.addImport]
  have estart : processLine .coding (⟨"main", [], ""⟩ : GoFile) "import ("
      = (.importing, ⟨"main", [], ""⟩) := by decide
  have eblock : processLine .importing (⟨"main", [], ""⟩ : GoFile)
      ("\t\"" ++ path ++ "\"")
      = (.importing, ⟨"main", ["\t\"" ++ path ++ "\""], ""⟩) := by
    simp only [processLine, h4, h5, h6, h7, Bool.false_eq_true, if_false,
      Bool.and_false, if_neg h8]
    simp [GoFile.addImport]
  have eend : processLine .importing
      (⟨"main", ["\t\"" ++ path ++ "\""], ""⟩ : GoFile) ")"
      = (.coding, ⟨"main", ["\t\"" ++ path ++ "\""], ""⟩) := rfl
  have hfA : process ["package main", "import \"" ++ path ++ "\""]
      = ⟨"main", [" \"" ++ path ++ "\""], ""⟩ := by
    unfold process
    rw [List.foldl_cons, List.foldl_cons, List.foldl_nil]
    dsimp only
    rw [e1]
    dsimp only
    rw [emono]
  have hfB : process ["package main", "import (", "\t\"" ++ path ++ "\"", ")"]
      = ⟨"main", ["\t\"" ++ path ++ "\""], ""⟩ := by
    unfold process
    rw [List.foldl_cons, List.foldl_cons, List.foldl_cons, List.foldl_cons,
      List.foldl_nil]
    dsimp only
    rw [e1]
    dsimp only
    rw [estart]
    dsimp only
    rw [eblock]
    dsimp only
    rw [eend]
  rw [hfA, hfB]
  refine ⟨rfl, rfl, ?_⟩
  have hm1 : newGoFile.merge ⟨"main", [" \"" ++ path ++ "\""], ""⟩
      = ⟨"main", [" \"" ++ path ++ "\""], ""⟩ := by
    simp [GoFile.merge, newGoFile, GoFile.addImport]
  rw [hm1]
  simp [GoFile.merge, GoFile.addImport, Ne.symm h9]

/-- Witness for C10 at the path `fmt`: the merged import set holds both
`" \"fmt\""` (single-line form, space kept) and `"\t\"fmt\""` (block form,
tab kept). -/
theorem dual_import_forms_witness :
    ((newGoFile.merge
        (process ["package main", "import \"" ++ "fmt" ++ "\""])).merge
        (process ["package main", "import (", "\t\"" ++ "fmt" ++ "\"", ")"])).imports
      = [" \"" ++ "fmt" ++ "\"", "\t\"" ++ "fmt" ++ "\""] :=
  (dual_import_forms "fmt" (by decide) (by decide) (by decide) (by decide)
    (by decide) (by decide) (by decide) (by decide) (by decide)).2.2

end Converge
